import Mathlib

/-!
Verification of the sightline RAG core (src/api/app) against its design
specification.  The development embeds, directly from the Python source:

* `RAGFusion._reciprocal_rank_fusion` (src/api/app/qa_rag/rag_fusion.py):
  the fused-scores dict as an insertion-ordered association list, and the
  stable descending sort of its items;
* `MultiQuery._get_unique_union` (src/api/app/qa_rag/multi_query.py);
* `PaperQA.ask_question` (src/api/app/paper_reader/paper_qa.py): the
  blank-question guard, the per-request temporary directory lifecycle, the
  strategy dispatch and the four retrieval chains;
* the `/ask` route wiring (src/api/app/router.py) and the request schema
  (src/api/app/schemas/question.py);
* `PaperSummarizer.generate_summary` (src/api/app/paper_reader/paper_summarizer.py)
  with its strict pydantic-style schema validation.

Modelling conventions: Python floats are modelled as exact rationals;
LangChain documents as a record of page content plus chunk metadata; the
`dumps`/`loads` serialization of documents is modelled by the documents
themselves (`dumps` is injective on the fields it serializes and `loads`
is its inverse).  The language model, embeddings and the vector store are
external collaborators and appear as function parameters; calls to the
language model are recorded as events so that call counts are observable.
-/

namespace Sightline

/-- A LangChain `Document`: page content plus (an abstraction of) its
metadata, here the chunk index. -/
structure Document where
  page_content : String
  chunk_index : Nat
deriving DecidableEq

/-- A Python value flowing through a `RunnableLambda` of the rag_fusion
chain: either a plain `Document`, or a `(Document, score)` tuple as
produced by `_reciprocal_rank_fusion`. -/
inductive PyVal where
  | doc (d : Document)
  | tup (d : Document) (score : ℚ)
deriving DecidableEq

section RRF

variable {D : Type} [DecidableEq D]

/-- One Python dict update
`fused_scores[doc_str] = fused_scores.get(doc_str, 0) + inc`:
a dict preserves insertion order, so an existing key is updated in place
and a new key is appended at the end. -/
def updateScore : List (D × ℚ) → D → ℚ → List (D × ℚ)
  | [], d, inc => [(d, inc)]
  | e :: acc, d, inc =>
      if e.1 = d then (e.1, e.2 + inc) :: acc else e :: updateScore acc d inc

/-- The inner loop `for rank, doc in enumerate(docs)` of
`_reciprocal_rank_fusion`, adding `1 / (rank + k)` for each document;
`r` is the rank of the first element of `docs`. -/
def applyRanked (k : ℚ) : List (D × ℚ) → Nat → List D → List (D × ℚ)
  | acc, _, [] => acc
  | acc, r, d :: ds => applyRanked k (updateScore acc d (1 / ((r : ℚ) + k))) (r + 1) ds

/-- The `fused_scores` dict built by `RAGFusion._reciprocal_rank_fusion`
over all variant result lists, as an insertion-ordered association list. -/
def fusedScores (results : List (List D)) (k : ℚ) : List (D × ℚ) :=
  results.foldl (fun acc docs => applyRanked k acc 0 docs) []

/-- The comparison used by
`sorted(fused_scores.items(), key=lambda x: x[1], reverse=True)`:
an item comes first when its score is at least the other score. -/
def scoreGe (p q : D × ℚ) : Prop := q.2 ≤ p.2

instance : DecidableRel (@scoreGe D) :=
  fun p q => inferInstanceAs (Decidable (q.2 ≤ p.2))

instance : IsTotal (D × ℚ) scoreGe := ⟨fun p q => le_total q.2 p.2⟩

instance : IsTrans (D × ℚ) scoreGe := ⟨fun _ _ _ h1 h2 => le_trans h2 h1⟩

/-- `RAGFusion._reciprocal_rank_fusion`: build the fused-scores dict, then
sort its items by descending score.  Python `sorted` is a stable sort and
a stable sort by a total preorder has a unique result, so insertion sort
models it exactly; sortedness and stability are proved below. -/
def reciprocal_rank_fusion (results : List (List D)) (k : ℚ) : List (D × ℚ) :=
  List.insertionSort scoreGe (fusedScores results k)

/-- `MultiQuery._get_unique_union`: flatten the per-variant result lists,
take the set of serialized documents, and deserialize.  A Python set has
no specified order, so the embedding fixes first-occurrence order; the
properties proved about it are order-independent. -/
def get_unique_union (documents : List (List D)) : List D :=
  documents.flatten.dedup

/-- Specification-side score of one variant list: the sum of `1 / (rank + k)`
over the occurrences of `d` in `docs`, where `r` is the rank of the first
element of `docs`. -/
def listScoreFrom (k : ℚ) (d : D) : Nat → List D → ℚ
  | _, [] => 0
  | r, x :: ds => (if x = d then 1 / ((r : ℚ) + k) else 0) + listScoreFrom k d (r + 1) ds

/-- Specification-side fused score of a document: the sum of its per-variant
scores over all variant lists. -/
def specScore (results : List (List D)) (d : D) (k : ℚ) : ℚ :=
  (results.map (fun docs => listScoreFrom k d 0 docs)).sum

/-- The score formula in the words of the specification: the sum, over the
variant lists in which the chunk appears, of `1 / (rank in that list + 60)`,
with 0-based ranks. -/
def claimScore (results : List (List D)) (d : D) : ℚ :=
  (results.map (fun l => if d ∈ l then 1 / ((l.indexOf d : ℚ) + 60) else 0)).sum

/-- The score stored in an association list for a key (0 when absent;
the sum of all stored values when the key is duplicated). -/
def scoreOf (l : List (D × ℚ)) (d : D) : ℚ :=
  ((l.filter (fun e => e.1 = d)).map Prod.snd).sum

/-- The keys of an association list, in order. -/
def keys (l : List (D × ℚ)) : List D := l.map Prod.fst

/-- First-seen accumulation: append each element not seen before. -/
def firstSeenFrom (acc : List D) (l : List D) : List D :=
  l.foldl (fun a d => if d ∈ a then a else a ++ [d]) acc

/-- The distinct elements of a list in first-seen order: the key order of a
Python dict filled from the list. -/
def firstSeen (l : List D) : List D := firstSeenFrom [] l

end RRF

/-- The join step `"\n".join([doc.page_content for doc in x])` applied to a
list of documents. -/
def joinPageContents (docs : List Document) : String :=
  String.intercalate "\n" (docs.map Document.page_content)

/-- Python attribute access `doc.page_content` on a chain value: succeeds on
a `Document`, raises `AttributeError` on a `(Document, score)` tuple. -/
def pageContentAttr : PyVal → Except String String
  | PyVal.doc d => Except.ok d.page_content
  | PyVal.tup _ _ => Except.error "AttributeError: tuple has no page_content"

/-- The join step of a retrieval chain on raw Python values: every element
must expose `page_content`, otherwise the step raises. -/
def joinStep (xs : List PyVal) : Except String String :=
  (xs.mapM pageContentAttr).map (String.intercalate "\n")

/-- Python `x.split("\n")` on the character list: splits at every newline
and keeps empty pieces, like `str.split` with an explicit separator. -/
def splitNlChars : List Char → List (List Char)
  | [] => [[]]
  | c :: cs =>
      let r := splitNlChars cs
      if c = '\n' then [] :: r
      else
        match r with
        | [] => [[c]]
        | h :: t => (c :: h) :: t

/-- Python `x.split("\n")` on strings: the query chain turns the raw model
output into the list of question variants. -/
def splitNl (s : String) : List String :=
  (splitNlChars s.data).map (fun l => String.mk l)

/-- Python `str.strip()` on a character list: drop leading and trailing
whitespace. -/
def pyStrip (l : List Char) : List Char :=
  ((l.dropWhile Char.isWhitespace).reverse.dropWhile Char.isWhitespace).reverse

/-- The guard `not question or not question.strip()` of `ask_question`:
the question is empty or consists only of whitespace. -/
def isBlank (question : String) : Bool :=
  (pyStrip question.data).isEmpty

/-- Observable events of one `ask_question` run: creation and removal of
the per-request temporary directory, and language-model invocations. -/
inductive Event where
  | mkdtemp
  | modelCall
  | rmtree
deriving DecidableEq, BEq

/-- Errors raised inside `ask_question`: the explicit
`ValueError("Question cannot be empty")`, and the failure of the
rag_fusion chain (its join lambda receives `(Document, score)` tuples). -/
inductive QAErr where
  | emptyQuestion
  | attributeError
deriving DecidableEq

/-- The generation prompt of the RAG chains, assembled from the fixed
template, the retrieved context and the question. -/
def ragPrompt (context question : String) : String :=
  "You are an expert at answering questions about academic papers. Use the following pieces of context to answer the question at the end. If you do not know the answer, just say that you do not know. If the question is not related to the paper, say that the question is not relevant to this paper.\n\nContext:\n"
    ++ context ++ "\n\nQuestion: " ++ question ++ "\n\nAnswer:"

/-- The query-expansion prompt shared by the multi_query and rag_fusion
chains. -/
def multiQueryPrompt (question : String) : String :=
  "You are an AI language model assistant. Your task is to generate five different versions of the given user question to retrieve relevant documents from a vector database. Provide these alternative questions separated by newlines. Original question: "
    ++ question

/-- The HyDE prompt: ask the model for a hypothetical academic passage. -/
def hydePrompt (question : String) : String :=
  "You are an AI academic research assistant. Please write an academic passage to answer the following question. Question: " ++ question

/-- The four retrieval chains of `PaperQA.ask_question`. -/
inductive ChainKind where
  | simple
  | multiQuery
  | ragFusion
  | hyde
deriving DecidableEq

/-- The `match self._strategy` dispatch of `PaperQA.ask_question`: the
cases are tried in order and the wildcard `case _` falls back to the
simple chain. -/
def dispatchStrategy (strategy : String) : ChainKind :=
  if strategy = "multi_query" then ChainKind.multiQuery
  else if strategy = "rag_fusion" then ChainKind.ragFusion
  else if strategy = "hyde" then ChainKind.hyde
  else ChainKind.simple

/-- The external collaborators of one question run: the deterministic
language model and the vector-store retriever (top-k, k fixed at 4). -/
structure Collab where
  llm : String → String
  retrieve : String → List Document

/-- The simple chain: retrieve with the original question, join page
contents, generate. One model call. -/
def simpleBody (c : Collab) (question : String) : Except QAErr String × List Event :=
  let context := joinPageContents (c.retrieve question)
  (Except.ok (c.llm (ragPrompt context question)), [Event.modelCall])

/-- The multi_query chain: expand the question (one model call), retrieve
per variant, take the unique union, join, generate (one model call). -/
def multiQueryBody (c : Collab) (question : String) : Except QAErr String × List Event :=
  let variants := splitNl (c.llm (multiQueryPrompt question))
  let docs := get_unique_union (variants.map c.retrieve)
  let context := joinPageContents docs
  (Except.ok (c.llm (ragPrompt context question)), [Event.modelCall, Event.modelCall])

/-- The rag_fusion chain of `PaperQA`: expand (one model call), retrieve per
variant, fuse, then join.  The join lambda iterates the fused list, whose
elements are `(Document, score)` tuples, so its `doc.page_content` access
raises and the chain fails before the generation call.  (In the source the
step is doubly broken: `PaperQA._reciprocal_rank_fusion` is also declared
without `self`, so the bound call already shifts its arguments.) -/
def ragFusionBody (c : Collab) (question : String) : Except QAErr String × List Event :=
  let variants := splitNl (c.llm (multiQueryPrompt question))
  let fused := reciprocal_rank_fusion (variants.map c.retrieve) 60
  match joinStep (fused.map (fun p => PyVal.tup p.1 p.2)) with
  | Except.error _ => (Except.error QAErr.attributeError, [Event.modelCall])
  | Except.ok context =>
      (Except.ok (c.llm (ragPrompt context question)), [Event.modelCall, Event.modelCall])

/-- The hyde chain: generate a hypothetical passage (one model call),
retrieve with the passage, join, generate (one model call). -/
def hydeBody (c : Collab) (question : String) : Except QAErr String × List Event :=
  let passage := c.llm (hydePrompt question)
  let context := joinPageContents (c.retrieve passage)
  (Except.ok (c.llm (ragPrompt context question)), [Event.modelCall, Event.modelCall])

/-- Run the chain selected by the dispatch. -/
def strategyBody (c : Collab) : ChainKind → String → Except QAErr String × List Event
  | ChainKind.simple, q => simpleBody c q
  | ChainKind.multiQuery, q => multiQueryBody c q
  | ChainKind.ragFusion, q => ragFusionBody c q
  | ChainKind.hyde, q => hydeBody c q

/-- `PaperQA.ask_question`: the blank-question guard runs first; past it,
`tempfile.mkdtemp()` creates the per-request directory, the dispatched
chain runs inside `try`, and the `finally` block removes the directory
with `shutil.rmtree` on every exit path. -/
def ask_question (c : Collab) (strategy question : String) :
    Except QAErr String × List Event :=
  if isBlank question then (Except.error QAErr.emptyQuestion, [])
  else
    let body := strategyBody c (dispatchStrategy strategy) question
    (body.1, Event.mkdtemp :: body.2 ++ [Event.rmtree])

/-- The request schema `StrategyEnum`: the only admissible tags. -/
inductive StrategyEnum where
  | simple
  | multi_query
deriving DecidableEq

/-- The wire value of a schema tag. -/
def StrategyEnum.tag : StrategyEnum → String
  | StrategyEnum.simple => "simple"
  | StrategyEnum.multi_query => "multi_query"

/-- The `QuestionRequest` schema of the `/ask` endpoint. -/
structure QuestionRequest where
  paper_url : String
  question : String
  strategy : StrategyEnum

/-- The `PaperQA.__init__` default `strategy = "simple"`. -/
def paperQADefaultStrategy : String := "simple"

/-- The `/ask` route: it constructs `PaperQA(paper_data)` without forwarding
`question_request.strategy`, so the QA system keeps the constructor
default, whatever the request carried. -/
def askRoute (c : Collab) (req : QuestionRequest) :
    Except QAErr String × List Event :=
  ask_question c paperQADefaultStrategy req.question

/-- A JSON-like value, the shape of the model output handed to the
pydantic parser. -/
inductive JsonVal where
  | str (s : String)
  | num (n : Int)
  | arr (xs : List JsonVal)

/-- A JSON object as an association list of fields. -/
abbrev JsonObj := List (String × JsonVal)

/-- Read a field as a string, failing on a missing or mistyped field. -/
def asStr : Option JsonVal → Option String
  | some (JsonVal.str s) => some s
  | _ => none

/-- Read a field as a list of strings, failing on a missing or mistyped
field or on any non-string element. -/
def asStrList : Option JsonVal → Option (List String)
  | some (JsonVal.arr xs) =>
      xs.mapM (fun v => match v with | JsonVal.str s => some s | _ => none)
  | _ => none

/-- The `PaperSummary` pydantic model: seven required fields, no defaults. -/
structure PaperSummary where
  title : String
  authors : List String
  abstract : String
  key_points : List String
  methodology : String
  results : String
  implications : String
deriving DecidableEq

/-- Parse a model output against the `PaperSummary` shape: every field must
be present with its declared type.  Nothing constrains field contents; in
particular empty strings and empty lists are accepted, exactly as in the
pydantic model. -/
def parsePaperSummary (j : JsonObj) : Option PaperSummary := do
  let title ← asStr (j.lookup "title")
  let authors ← asStrList (j.lookup "authors")
  let abstract ← asStr (j.lookup "abstract")
  let key_points ← asStrList (j.lookup "key_points")
  let methodology ← asStr (j.lookup "methodology")
  let results ← asStr (j.lookup "results")
  let implications ← asStr (j.lookup "implications")
  pure ⟨title, authors, abstract, key_points, methodology, results, implications⟩

/-- `PydanticOutputParser(pydantic_object=PaperSummary)`: strict parsing,
a missing or mistyped field raises a validation error; nothing is
defaulted and nothing partial is produced. -/
def validateSummary (j : JsonObj) : Except String PaperSummary :=
  match parsePaperSummary j with
  | some s => Except.ok s
  | none => Except.error "SchemaValidationError"

/-- The shape required of the synthesis output: all seven fields present
with their declared types. -/
def wellShaped (j : JsonObj) : Prop :=
  (asStr (j.lookup "title")).isSome ∧ (asStrList (j.lookup "authors")).isSome ∧
  (asStr (j.lookup "abstract")).isSome ∧ (asStrList (j.lookup "key_points")).isSome ∧
  (asStr (j.lookup "methodology")).isSome ∧ (asStr (j.lookup "results")).isSome ∧
  (asStr (j.lookup "implications")).isSome

/-- The paper details used by the summarizer prompts. -/
structure PaperDetails where
  title : String
  authors : List String
  abstract : String
deriving DecidableEq

/-- `paper_data`: details plus the chunked documents. -/
structure PaperData where
  details : PaperDetails
  documents : List Document
deriving DecidableEq

/-- Errors of `generate_summary`: the Python `IndexError` raised by
`paper_data["documents"][0]` on an empty chunk list, and the schema
validation failure of the synthesis output. -/
inductive SummErr where
  | indexOutOfRange
  | schemaValidation
deriving DecidableEq

/-- `_prepare_overall_prompt_inputs`, flattened into the prompt string. -/
def overallPromptInputs (details : PaperDetails) (section_summaries : List String) : String :=
  "Paper Title: " ++ details.title
    ++ "\nAuthors: " ++ String.intercalate ", " details.authors
    ++ "\nAbstract: " ++ details.abstract
    ++ "\n\nSummaries of All Sections:\n" ++ String.intercalate "\n\n" section_summaries

/-- The summarizer collaborators: the section chain (string to string) and
the overall chain up to the parser (string to raw structured output). -/
structure SummarizerCollab where
  sectionLLM : String → String
  overallLLM : String → JsonObj

/-- `PaperSummarizer.generate_summary`: with more than one chunk, one model
call per chunk produces the section summaries and one final call performs
the synthesis; with at most one chunk, `documents[0]` is read directly (an
out-of-range error on an empty list, before any model call) and one
synthesis call is made.  The second component counts model calls. -/
def generate_summary (c : SummarizerCollab) (paper : PaperData) :
    Except SummErr PaperSummary × Nat :=
  if paper.documents.length > 1 then
    match validateSummary (c.overallLLM (overallPromptInputs paper.details
        (paper.documents.map (fun d => c.sectionLLM d.page_content)))) with
    | Except.ok s => (Except.ok s, paper.documents.length + 1)
    | Except.error _ => (Except.error SummErr.schemaValidation, paper.documents.length + 1)
  else
    match paper.documents.head? with
    | none => (Except.error SummErr.indexOutOfRange, 0)
    | some d =>
        match validateSummary (c.overallLLM (overallPromptInputs paper.details [d.page_content])) with
        | Except.ok s => (Except.ok s, 1)
        | Except.error _ => (Except.error SummErr.schemaValidation, 1)

/-- The prompt string handed to the overall chain by `generate_summary`
(with the single-chunk fallback reading an empty content on an empty
paper, a case in which `generate_summary` never reaches the model). -/
def overallInput (c : SummarizerCollab) (paper : PaperData) : String :=
  if paper.documents.length > 1 then
    overallPromptInputs paper.details (paper.documents.map (fun d => c.sectionLLM d.page_content))
  else
    overallPromptInputs paper.details [((paper.documents.head?).map Document.page_content).getD ""]

/-- A sample chunk used by concrete runs. -/
def sampleDoc : Document := ⟨"Attention is all you need.", 0⟩

/-- A variant list of length 62 with pairwise distinct chunks: chunk 1
first, sixty filler chunks, chunk 0 last. -/
def bigVariant : List ℕ := 1 :: (((List.range 60).map (fun i => i + 2)) ++ [0])

/-- Variant results where chunk 0 appears in three variant lists and chunk 1
in two, both with best rank 0. -/
def cexResults : List (List ℕ) := [bigVariant, bigVariant, [0]]

/-- A synthesis output whose seven fields are all present, correctly typed
and empty. -/
def emptyFieldsJson : JsonObj :=
  [("title", JsonVal.str ""), ("authors", JsonVal.arr []),
   ("abstract", JsonVal.str ""), ("key_points", JsonVal.arr []),
   ("methodology", JsonVal.str ""), ("results", JsonVal.str ""),
   ("implications", JsonVal.str "")]

/-- The summary parsed from `emptyFieldsJson`. -/
def emptySummary : PaperSummary := ⟨"", [], "", [], "", "", ""⟩

section RRFLemmas

variable {D : Type} [DecidableEq D]

theorem scoreOf_nil (d : D) : scoreOf ([] : List (D × ℚ)) d = 0 := rfl

theorem scoreOf_cons (e : D × ℚ) (l : List (D × ℚ)) (d : D) :
    scoreOf (e :: l) d = (if e.1 = d then e.2 else 0) + scoreOf l d := by
  by_cases h : e.1 = d <;> simp [scoreOf, List.filter_cons, h]

theorem keys_cons (e : D × ℚ) (l : List (D × ℚ)) : keys (e :: l) = e.1 :: keys l := rfl

theorem scoreOf_updateScore (acc : List (D × ℚ)) (d' : D) (inc : ℚ) (d : D) :
    scoreOf (updateScore acc d' inc) d
      = scoreOf acc d + (if d' = d then inc else 0) := by
  induction acc with
  | nil =>
      by_cases h : d' = d <;> simp [updateScore, scoreOf_cons, scoreOf_nil, h]
  | cons e acc ih =>
      by_cases he : e.1 = d'
      · subst he
        simp only [updateScore, if_pos rfl, scoreOf_cons]
        by_cases hd : e.1 = d <;> simp [scoreOf_cons, hd] <;> ring
      · have hupd : updateScore (e :: acc) d' inc = e :: updateScore acc d' inc := by
          simp [updateScore, he]
        rw [hupd, scoreOf_cons, scoreOf_cons, ih]
        ring

theorem keys_updateScore (acc : List (D × ℚ)) (d : D) (inc : ℚ) :
    keys (updateScore acc d inc)
      = if d ∈ keys acc then keys acc else keys acc ++ [d] := by
  induction acc with
  | nil => simp [updateScore, keys]
  | cons e acc ih =>
      by_cases he : e.1 = d
      · subst he
        simp [updateScore, keys]
      · have he' : ¬ d = e.1 := fun h => he h.symm
        have hupd : updateScore (e :: acc) d inc = e :: updateScore acc d inc := by
          simp [updateScore, he]
        have hmemiff : d ∈ keys (e :: acc) ↔ d ∈ keys acc := by
          rw [keys_cons]
          simp [he']
        by_cases hm : d ∈ keys acc
        · rw [hupd, if_pos (hmemiff.mpr hm), keys_cons, keys_cons, ih, if_pos hm]
        · rw [hupd, if_neg (fun h => hm (hmemiff.mp h)), keys_cons, keys_cons, ih,
            if_neg hm, List.cons_append]

theorem scoreOf_applyRanked (k : ℚ) (docs : List D) :
    ∀ (acc : List (D × ℚ)) (r : Nat) (d : D),
      scoreOf (applyRanked k acc r docs) d
        = scoreOf acc d + listScoreFrom k d r docs := by
  induction docs with
  | nil => intro acc r d; simp [applyRanked, listScoreFrom]
  | cons x ds ih =>
      intro acc r d
      by_cases h : x = d <;>
        simp [applyRanked, listScoreFrom, ih, scoreOf_updateScore, h] <;> ring

theorem keys_applyRanked (k : ℚ) (docs : List D) :
    ∀ (acc : List (D × ℚ)) (r : Nat),
      keys (applyRanked k acc r docs) = firstSeenFrom (keys acc) docs := by
  induction docs with
  | nil => intro acc r; simp [applyRanked, firstSeenFrom]
  | cons x ds ih =>
      intro acc r
      have step : firstSeenFrom (keys acc) (x :: ds)
          = firstSeenFrom (if x ∈ keys acc then keys acc else keys acc ++ [x]) ds := rfl
      simp [applyRanked, ih, keys_updateScore, step]

theorem scoreOf_foldl_applyRanked (k : ℚ) (results : List (List D)) :
    ∀ (acc : List (D × ℚ)) (d : D),
      scoreOf (results.foldl (fun a docs => applyRanked k a 0 docs) acc) d
        = scoreOf acc d + (results.map (fun docs => listScoreFrom k d 0 docs)).sum := by
  induction results with
  | nil => intro acc d; simp
  | cons l ls ih =>
      intro acc d
      simp [List.foldl_cons, ih, scoreOf_applyRanked]
      ring

theorem scoreOf_fusedScores (results : List (List D)) (k : ℚ) (d : D) :
    scoreOf (fusedScores results k) d = specScore results d k := by
  simpa [scoreOf_nil, specScore] using scoreOf_foldl_applyRanked k results [] d

theorem firstSeenFrom_append (a l1 l2 : List D) :
    firstSeenFrom a (l1 ++ l2) = firstSeenFrom (firstSeenFrom a l1) l2 := by
  simp [firstSeenFrom, List.foldl_append]

theorem keys_foldl_applyRanked (k : ℚ) (results : List (List D)) :
    ∀ acc : List (D × ℚ),
      keys (results.foldl (fun a docs => applyRanked k a 0 docs) acc)
        = firstSeenFrom (keys acc) results.flatten := by
  induction results with
  | nil => intro acc; simp [firstSeenFrom]
  | cons l ls ih =>
      intro acc
      simp [List.foldl_cons, ih, keys_applyRanked, firstSeenFrom_append]

theorem keys_fusedScores (results : List (List D)) (k : ℚ) :
    keys (fusedScores results k) = firstSeen results.flatten := by
  simpa [keys, firstSeen] using keys_foldl_applyRanked k results []

theorem mem_firstSeenFrom (l : List D) :
    ∀ (a : List D) (x : D), x ∈ firstSeenFrom a l ↔ x ∈ a ∨ x ∈ l := by
  induction l with
  | nil => intro a x; simp [firstSeenFrom]
  | cons y ys ih =>
      intro a x
      have step : firstSeenFrom a (y :: ys)
          = firstSeenFrom (if y ∈ a then a else a ++ [y]) ys := rfl
      rw [step]
      by_cases hy : y ∈ a
      · rw [if_pos hy, ih]
        constructor
        · rintro (h | h)
          · exact Or.inl h
          · exact Or.inr (List.mem_cons_of_mem y h)
        · rintro (h | h)
          · exact Or.inl h
          · rcases List.mem_cons.mp h with h | h
            · exact Or.inl (h ▸ hy)
            · exact Or.inr h
      · rw [if_neg hy, ih]
        simp [List.mem_append, List.mem_cons]
        tauto

theorem nodup_firstSeenFrom (l : List D) :
    ∀ a : List D, a.Nodup → (firstSeenFrom a l).Nodup := by
  induction l with
  | nil => intro a h; simpa [firstSeenFrom] using h
  | cons y ys ih =>
      intro a ha
      have step : firstSeenFrom a (y :: ys)
          = firstSeenFrom (if y ∈ a then a else a ++ [y]) ys := rfl
      rw [step]
      apply ih
      by_cases hy : y ∈ a
      · simpa [hy] using ha
      · rw [if_neg hy]
        simp [List.nodup_append, ha, hy]

theorem nodup_keys_fusedScores (results : List (List D)) (k : ℚ) :
    (keys (fusedScores results k)).Nodup := by
  rw [keys_fusedScores]
  exact nodup_firstSeenFrom results.flatten [] List.nodup_nil

theorem scoreOf_eq_zero_of_not_mem {l : List (D × ℚ)} {d : D} (h : d ∉ keys l) :
    scoreOf l d = 0 := by
  induction l with
  | nil => rfl
  | cons e t ih =>
      have h1 : e.1 ≠ d := fun he => h (by simp [keys, he])
      have h2 : d ∉ keys t := fun hm => h (by simp [keys]; exact Or.inr (by simpa [keys] using hm))
      simp [scoreOf_cons, h1, ih h2]

theorem mem_assoc_iff {l : List (D × ℚ)} (hl : (keys l).Nodup) (d : D) (s : ℚ) :
    (d, s) ∈ l ↔ d ∈ keys l ∧ s = scoreOf l d := by
  induction l with
  | nil => simp [keys]
  | cons e t ih =>
      have hl2 : (e.1 :: keys t).Nodup := by rwa [keys_cons] at hl
      have he : e.1 ∉ keys t := (List.nodup_cons.mp hl2).1
      have hl' : (keys t).Nodup := (List.nodup_cons.mp hl2).2
      rw [keys_cons]
      constructor
      · intro hmem
        rcases List.mem_cons.mp hmem with h | h
        · have hd : d = e.1 := congrArg Prod.fst h
          have hs : s = e.2 := congrArg Prod.snd h
          subst hd; subst hs
          exact ⟨List.mem_cons_self _ _,
            by simp [scoreOf_cons, scoreOf_eq_zero_of_not_mem he]⟩
        · obtain ⟨hdk, hds⟩ := (ih hl').mp h
          have hne : e.1 ≠ d := fun hh => he (hh ▸ hdk)
          exact ⟨List.mem_cons_of_mem _ hdk, by simp [scoreOf_cons, hne, hds]⟩
      · rintro ⟨hdk, hds⟩
        rcases List.mem_cons.mp hdk with h | h
        · subst h
          have hs : s = e.2 := by
            simpa [scoreOf_cons, scoreOf_eq_zero_of_not_mem he] using hds
          subst hs
          simp
        · have hne : e.1 ≠ d := fun hh => he (hh ▸ h)
          have hs : s = scoreOf t d := by simpa [scoreOf_cons, hne] using hds
          exact List.mem_cons_of_mem _ ((ih hl').mpr ⟨h, hs⟩)

theorem listScoreFrom_of_not_mem (k : ℚ) (d : D) {docs : List D} (h : d ∉ docs) :
    ∀ r : Nat, listScoreFrom k d r docs = 0 := by
  induction docs with
  | nil => intro r; rfl
  | cons x ds ih =>
      intro r
      have hx : x ≠ d := fun hh => h (hh ▸ List.mem_cons_self x ds)
      have hds : d ∉ ds := fun hh => h (List.mem_cons_of_mem x hh)
      simp [listScoreFrom, hx, ih hds]

theorem listScoreFrom_nonneg {k : ℚ} (hk : 0 ≤ k) (d : D) (docs : List D) :
    ∀ r : Nat, 0 ≤ listScoreFrom k d r docs := by
  induction docs with
  | nil => intro r; simp [listScoreFrom]
  | cons x ds ih =>
      intro r
      have h1 : (0:ℚ) ≤ 1 / ((r : ℚ) + k) :=
        div_nonneg zero_le_one (add_nonneg (Nat.cast_nonneg r) hk)
      have h2 : (0:ℚ) ≤ if x = d then 1 / ((r : ℚ) + k) else 0 := by
        split
        · exact h1
        · exact le_refl 0
      simpa [listScoreFrom] using add_nonneg h2 (ih (r + 1))

theorem listScoreFrom_nodup (k : ℚ) (d : D) {docs : List D} (hnd : docs.Nodup)
    (hmem : d ∈ docs) :
    ∀ r : Nat,
      listScoreFrom k d r docs = 1 / ((r : ℚ) + (docs.indexOf d : ℚ) + k) := by
  induction docs with
  | nil => cases hmem
  | cons x ds ih =>
      intro r
      by_cases hx : x = d
      · subst hx
        have hnotin : x ∉ ds := (List.nodup_cons.mp hnd).1
        rw [List.indexOf_cons_self]
        simp [listScoreFrom, listScoreFrom_of_not_mem k x hnotin]
      · have hmem' : d ∈ ds := by
          rcases List.mem_cons.mp hmem with h | h
          · exact absurd h.symm hx
          · exact h
        have hnd' : ds.Nodup := (List.nodup_cons.mp hnd).2
        rw [List.indexOf_cons_ne _ hx]
        simp only [listScoreFrom, if_neg hx, ih hnd' hmem', zero_add]
        have harg : ((r + 1 : Nat) : ℚ) + (ds.indexOf d : ℚ) + k
            = (r : ℚ) + ((ds.indexOf d).succ : ℚ) + k := by
          push_cast
          ring
        rw [harg]

theorem listScoreFrom_eq_claim (d : D) {docs : List D} (hnd : docs.Nodup) :
    listScoreFrom 60 d 0 docs
      = if d ∈ docs then 1 / ((docs.indexOf d : ℚ) + 60) else 0 := by
  by_cases h : d ∈ docs
  · rw [if_pos h, listScoreFrom_nodup 60 d hnd h 0]
    norm_num
  · rw [if_neg h, listScoreFrom_of_not_mem 60 d h 0]

theorem specScore_eq_claimScore {results : List (List D)}
    (h : ∀ l ∈ results, l.Nodup) (d : D) :
    specScore results d 60 = claimScore results d := by
  unfold specScore claimScore
  congr 1
  exact List.map_congr_left (fun l hl => listScoreFrom_eq_claim d (h l hl))

theorem filter_orderedInsert_score (s : ℚ) (a : D × ℚ) (l : List (D × ℚ)) :
    (List.orderedInsert scoreGe a l).filter (fun p => p.2 = s)
      = if a.2 = s then a :: l.filter (fun p => p.2 = s)
        else l.filter (fun p => p.2 = s) := by
  induction l with
  | nil => by_cases h : a.2 = s <;> simp [List.orderedInsert, h]
  | cons b t ih =>
      by_cases hab : scoreGe a b
      · by_cases h : a.2 = s <;>
          simp [List.orderedInsert, hab, List.filter_cons, h]
      · have hab' : ¬ (b.2 ≤ a.2) := hab
        have halt : a.2 < b.2 := lt_of_not_le hab'
        by_cases h : a.2 = s
        · have hb : ¬ b.2 = s := by
            intro hbs
            rw [h, hbs] at halt
            exact lt_irrefl s halt
          simp [List.orderedInsert, hab, List.filter_cons, h, hb, ih]
        · by_cases hb : b.2 = s <;>
            simp [List.orderedInsert, hab, List.filter_cons, h, hb, ih]

theorem filter_insertionSort_score (s : ℚ) (l : List (D × ℚ)) :
    (List.insertionSort scoreGe l).filter (fun p => p.2 = s)
      = l.filter (fun p => p.2 = s) := by
  induction l with
  | nil => rfl
  | cons a t ih =>
      rw [List.insertionSort, filter_orderedInsert_score, ih]
      by_cases h : a.2 = s <;> simp [List.filter_cons, h]

theorem sorted_rrf (results : List (List D)) (k : ℚ) :
    List.Sorted scoreGe (reciprocal_rank_fusion results k) :=
  List.sorted_insertionSort scoreGe (fusedScores results k)

theorem perm_rrf (results : List (List D)) (k : ℚ) :
    (reciprocal_rank_fusion results k).Perm (fusedScores results k) :=
  List.perm_insertionSort scoreGe (fusedScores results k)

theorem mem_firstSeen_iff (l : List D) (x : D) : x ∈ firstSeen l ↔ x ∈ l := by
  simp [firstSeen, mem_firstSeenFrom]

theorem mem_rrf_iff (results : List (List D)) (k : ℚ) (d : D) (s : ℚ) :
    (d, s) ∈ reciprocal_rank_fusion results k
      ↔ d ∈ firstSeen results.flatten ∧ s = specScore results d k := by
  rw [(perm_rrf results k).mem_iff,
    mem_assoc_iff (nodup_keys_fusedScores results k), keys_fusedScores,
    scoreOf_fusedScores]

end RRFLemmas

/-- C1: for every list of per-variant ranked (duplicate-free) document
lists, reciprocal rank fusion assigns each distinct chunk the fused score
equal to the sum, over the variant lists in which it appears, of
`1 / (rank in that list + 60)`; exactly the chunks of the variant lists
appear in the output; the output is sorted by descending fused score; and
ties are broken by insertion order, first-seen wins: the fused-scores dict
lists its keys in first-seen order and the sort is stable, keeping the
relative order of equal scores. -/
theorem rrf_assigns_claimScore_sorted_stable {D : Type} [DecidableEq D]
    (results : List (List D)) (hranked : ∀ l ∈ results, l.Nodup) :
    (∀ p ∈ reciprocal_rank_fusion results 60, p.2 = claimScore results p.1) ∧
    (∀ d : D, (∃ s, (d, s) ∈ reciprocal_rank_fusion results 60) ↔ d ∈ results.flatten) ∧
    List.Sorted scoreGe (reciprocal_rank_fusion results 60) ∧
    (∀ s : ℚ, (reciprocal_rank_fusion results 60).filter (fun p => p.2 = s)
      = (fusedScores results 60).filter (fun p => p.2 = s)) ∧
    keys (fusedScores results 60) = firstSeen results.flatten := by
  refine ⟨?_, ?_, sorted_rrf results 60, ?_, keys_fusedScores results 60⟩
  · rintro ⟨d, s⟩ hp
    obtain ⟨-, hs⟩ := (mem_rrf_iff results 60 d s).mp hp
    rw [hs]
    exact specScore_eq_claimScore hranked d
  · intro d
    constructor
    · rintro ⟨s, hs⟩
      exact (mem_firstSeen_iff _ d).mp ((mem_rrf_iff results 60 d s).mp hs).1
    · intro hd
      exact ⟨specScore results d 60,
        (mem_rrf_iff results 60 d _).mpr ⟨(mem_firstSeen_iff _ d).mpr hd, rfl⟩⟩
  · intro s
    exact filter_insertionSort_score s (fusedScores results 60)

/-- C1 witness: the theorem applied at a concrete pair of ranked variant
lists. -/
theorem rrf_assigns_claimScore_sorted_stable_witness :
    keys (fusedScores ([[0, 1], [1, 2]] : List (List ℕ)) 60)
      = firstSeen ([[0, 1], [1, 2]] : List (List ℕ)).flatten :=
  (rrf_assigns_claimScore_sorted_stable [[0, 1], [1, 2]] (by decide)).2.2.2.2

/-- C2: the multi_query unique union contains no duplicate chunks and holds
exactly the chunks of the flattened per-variant results; nothing
constrains its order, which is whatever the set iteration produced. -/
theorem unique_union_nodup_mem {D : Type} [DecidableEq D]
    (documents : List (List D)) :
    (get_unique_union documents).Nodup ∧
    ∀ d : D, d ∈ get_unique_union documents ↔ d ∈ documents.flatten :=
  ⟨List.nodup_dedup _, fun _ => List.mem_dedup⟩

/-- C3 (amended): over duplicate-free variant lists, a chunk ranked first
in every variant list receives the maximum fused score among all
candidates; and a chunk that appears in every variant list in which
another chunk appears, each time at a rank at most the rank of the other,
receives a fused score at least as large. -/
theorem rrf_top_ranked_max_and_rank_dominance {D : Type} [DecidableEq D]
    (results : List (List D)) (hnd : ∀ l ∈ results, l.Nodup) :
    (∀ X : D, (∀ l ∈ results, l.head? = some X) →
      (results ≠ [] → (X, specScore results X 60) ∈ reciprocal_rank_fusion results 60) ∧
      ∀ p ∈ reciprocal_rank_fusion results 60, p.2 ≤ specScore results X 60) ∧
    (∀ pA pB : D × ℚ, pA ∈ reciprocal_rank_fusion results 60 →
      pB ∈ reciprocal_rank_fusion results 60 →
      (∀ l ∈ results, pB.1 ∈ l → pA.1 ∈ l ∧ l.indexOf pA.1 ≤ l.indexOf pB.1) →
      pB.2 ≤ pA.2) := by
  constructor
  · intro X hX
    constructor
    · intro hne
      obtain ⟨l0, hl0⟩ := List.exists_mem_of_ne_nil results hne
      have hXl0 : X ∈ l0 := by
        cases l0 with
        | nil => simpa using hX [] hl0
        | cons y t =>
            have hy : y = X := by simpa using hX (y :: t) hl0
            exact hy ▸ List.mem_cons_self y t
      have hXflat : X ∈ results.flatten := List.mem_flatten.mpr ⟨l0, hl0, hXl0⟩
      exact (mem_rrf_iff results 60 X _).mpr
        ⟨(mem_firstSeen_iff _ X).mpr hXflat, rfl⟩
    · rintro ⟨d, s⟩ hp
      obtain ⟨-, hs⟩ := (mem_rrf_iff results 60 d s).mp hp
      rw [hs]
      unfold specScore
      apply List.sum_le_sum
      intro l hl
      by_cases hdX : d = X
      · subst hdX
        exact le_refl _
      · have hln : l.Nodup := hnd l hl
        cases l with
        | nil => simpa using hX [] hl
        | cons y t =>
            have hy : y = X := by simpa using hX (y :: t) hl
            subst hy
            have hXs : listScoreFrom 60 y 0 (y :: t) = 1 / 60 := by
              rw [listScoreFrom_nodup 60 y hln (List.mem_cons_self y t) 0,
                List.indexOf_cons_self]
              norm_num
            rw [hXs]
            by_cases hdmem : d ∈ y :: t
            · rw [listScoreFrom_nodup 60 d hln hdmem 0]
              have hc : (0:ℚ) ≤ ((y :: t).indexOf d : ℚ) := Nat.cast_nonneg _
              calc 1 / ((0 : ℚ) + ((y :: t).indexOf d : ℚ) + 60)
                  ≤ 1 / ((0 : ℚ) + 60) := by
                    apply one_div_le_one_div_of_le
                    · norm_num
                    · linarith
                _ = 1 / 60 := by norm_num
            · rw [listScoreFrom_of_not_mem 60 d hdmem 0]
              norm_num
  · rintro ⟨A, sA⟩ ⟨B, sB⟩ hA hB hdom
    obtain ⟨-, hsA⟩ := (mem_rrf_iff results 60 A sA).mp hA
    obtain ⟨-, hsB⟩ := (mem_rrf_iff results 60 B sB).mp hB
    show sB ≤ sA
    rw [hsA, hsB]
    unfold specScore
    apply List.sum_le_sum
    intro l hl
    have hln : l.Nodup := hnd l hl
    by_cases hBmem : B ∈ l
    · obtain ⟨hAmem, hidx⟩ := hdom l hl hBmem
      rw [listScoreFrom_nodup 60 B hln hBmem 0, listScoreFrom_nodup 60 A hln hAmem 0]
      apply one_div_le_one_div_of_le
      · have hc : (0:ℚ) ≤ (l.indexOf A : ℚ) := Nat.cast_nonneg _
        linarith
      · have hc : (l.indexOf A : ℚ) ≤ (l.indexOf B : ℚ) := Nat.cast_le.mpr hidx
        linarith
    · rw [listScoreFrom_of_not_mem 60 B hBmem 0]
      exact listScoreFrom_nonneg (by norm_num) A l 0

/-- C3 witness: the first-ranked chunk of two concrete duplicate-free
variant lists is in the fused output with its specification score. -/
theorem rrf_top_ranked_max_and_rank_dominance_witness :
    ((0 : ℕ), specScore ([[0, 1], [0, 2]] : List (List ℕ)) 0 60)
      ∈ reciprocal_rank_fusion ([[0, 1], [0, 2]] : List (List ℕ)) 60 :=
  (((rrf_top_ranked_max_and_rank_dominance [[0, 1], [0, 2]] (by decide)).1 0
    (by decide)).1 (by decide))

/-- C3 counterexample: the claim fails as stated.  On the single variant
list `[0, 1, 1]`, chunk 0 is ranked first in every variant list and yet
chunk 1 receives the larger fused score, because the code adds one term
per occurrence.  On `cexResults`, whose lists are duplicate-free, chunks 0
and 1 both have best rank 0 and chunk 0 appears in three variant lists
against two for chunk 1, yet chunk 0 receives the smaller fused score. -/
theorem rrf_claimed_maximality_counterexample :
    (scoreOf (fusedScores ([[0, 1, 1]] : List (List ℕ)) 60) 0 = 1 / 60 ∧
     scoreOf (fusedScores ([[0, 1, 1]] : List (List ℕ)) 60) 1 = 1 / 61 + 1 / 62 ∧
     ¬ scoreOf (fusedScores ([[0, 1, 1]] : List (List ℕ)) 60) 1
        ≤ scoreOf (fusedScores ([[0, 1, 1]] : List (List ℕ)) 60) 0) ∧
    (cexResults.countP (fun l => decide (0 ∈ l)) = 3 ∧
     cexResults.countP (fun l => decide (1 ∈ l)) = 2 ∧
     bigVariant.indexOf 1 = 0 ∧ ([0] : List ℕ).indexOf 0 = 0 ∧
     ¬ scoreOf (fusedScores cexResults 60) 1
        ≤ scoreOf (fusedScores cexResults 60) 0) := by
  have hs0 : scoreOf (fusedScores ([[0, 1, 1]] : List (List ℕ)) 60) 0
      = specScore [[0, 1, 1]] 0 60 := scoreOf_fusedScores _ _ _
  have hs1 : scoreOf (fusedScores ([[0, 1, 1]] : List (List ℕ)) 60) 1
      = specScore [[0, 1, 1]] 1 60 := scoreOf_fusedScores _ _ _
  have he0 : specScore ([[0, 1, 1]] : List (List ℕ)) 0 60 = 1 / 60 := by
    norm_num [specScore, listScoreFrom]
  have he1 : specScore ([[0, 1, 1]] : List (List ℕ)) 1 60 = 1 / 61 + 1 / 62 := by
    norm_num [specScore, listScoreFrom]
  have hnodup : bigVariant.Nodup := by decide
  have hmem0 : (0 : ℕ) ∈ bigVariant := by decide
  have hidx0 : bigVariant.indexOf 0 = 61 := by decide
  have hmem1 : (1 : ℕ) ∈ bigVariant := by decide
  have hidx1 : bigVariant.indexOf 1 = 0 := by decide
  have hbig0 : listScoreFrom 60 0 0 bigVariant = 1 / 121 := by
    rw [listScoreFrom_nodup 60 0 hnodup hmem0 0, hidx0]
    norm_num
  have hbig1 : listScoreFrom 60 1 0 bigVariant = 1 / 60 := by
    rw [listScoreFrom_nodup 60 1 hnodup hmem1 0, hidx1]
    norm_num
  have hsingle0 : listScoreFrom 60 (0 : ℕ) 0 [0] = 1 / 60 := by
    norm_num [listScoreFrom]
  have hsingle1 : listScoreFrom 60 (1 : ℕ) 0 [0] = 0 := by
    norm_num [listScoreFrom]
  have hc0 : specScore cexResults 0 60 = 1 / 121 + 1 / 121 + 1 / 60 := by
    simp [specScore, cexResults, hbig0, hsingle0]
    ring
  have hc1 : specScore cexResults 1 60 = 1 / 60 + 1 / 60 := by
    simp [specScore, cexResults, hbig1, hsingle1]
  refine ⟨⟨?_, ?_, ?_⟩, ?_, ?_, ?_, ?_, ?_⟩
  · rw [hs0]
    exact he0
  · rw [hs1]
    exact he1
  · rw [hs0, hs1, he0, he1]
    norm_num
  · decide
  · decide
  · decide
  · decide
  · rw [scoreOf_fusedScores, scoreOf_fusedScores, hc0, hc1]
    norm_num

/-- C4: the rag_fusion retrieval chain does not produce a newline-joined
block of chunk text.  Its join step receives the `(Document, score)`
tuples of the fusion output, the attribute access on a tuple raises, and
the chain of `ask_question` fails instead of building a context; the same
join succeeds on the plain documents the other chains supply. -/
theorem rag_fusion_join_step_fails :
    joinStep ((reciprocal_rank_fusion [[sampleDoc]] 60).map
        (fun p => PyVal.tup p.1 p.2))
      = Except.error "AttributeError: tuple has no page_content" ∧
    (ask_question ⟨fun _ => "ANSWER", fun _ => [sampleDoc]⟩ "rag_fusion"
        "What is attention?").1 = Except.error QAErr.attributeError ∧
    joinStep [PyVal.doc sampleDoc] = Except.ok sampleDoc.page_content ∧
    (ask_question ⟨fun _ => "ANSWER", fun _ => [sampleDoc]⟩ "simple"
        "What is attention?").1 = Except.ok "ANSWER" := by
  exact ⟨rfl, rfl, rfl, rfl⟩

/-- C5: a blank question, empty or whitespace-only, fails with the
empty-question error before any model call: the run returns the error with
an empty event trace, so the model call count is zero; a question that is
non-blank after stripping never yields the empty-question error. -/
theorem ask_question_blank_guard (c : Collab) (strategy question : String) :
    (isBlank question = true →
      ask_question c strategy question = (Except.error QAErr.emptyQuestion, []) ∧
      (ask_question c strategy question).2.count Event.modelCall = 0) ∧
    (isBlank question = false →
      (ask_question c strategy question).1 ≠ Except.error QAErr.emptyQuestion) := by
  constructor
  · intro hb
    constructor
    · simp [ask_question, hb]
    · simp [ask_question, hb]
  · intro hb
    have h1 : (ask_question c strategy question).1
        = (strategyBody c (dispatchStrategy strategy) question).1 := by
      simp [ask_question, hb]
    rw [h1]
    cases dispatchStrategy strategy with
    | simple => simp [strategyBody, simpleBody]
    | multiQuery => simp [strategyBody, multiQueryBody]
    | ragFusion =>
        simp only [strategyBody, ragFusionBody]
        split
        · simp
        · simp
    | hyde => simp [strategyBody, hydeBody]

/-- C5 witness: the theorem applied to a whitespace-only question. -/
theorem ask_question_blank_guard_witness :
    ask_question ⟨fun _ => "ANSWER", fun _ => []⟩ "simple" "  "
      = (Except.error QAErr.emptyQuestion, []) :=
  ((ask_question_blank_guard ⟨fun _ => "ANSWER", fun _ => []⟩ "simple" "  ").1
    (by decide)).1

/-- C9: past the blank-question guard, the per-request temporary directory
is created exactly once, as the first action, and removed exactly once, as
the last action, whatever the strategy and whether the chain returns an
answer or fails. -/
theorem ask_question_cleanup (c : Collab) (strategy question : String)
    (h : isBlank question = false) :
    (ask_question c strategy question).2.head? = some Event.mkdtemp ∧
    (ask_question c strategy question).2.getLast? = some Event.rmtree ∧
    (ask_question c strategy question).2.count Event.mkdtemp = 1 ∧
    (ask_question c strategy question).2.count Event.rmtree = 1 := by
  have h2 : (ask_question c strategy question).2
      = Event.mkdtemp :: (strategyBody c (dispatchStrategy strategy) question).2
          ++ [Event.rmtree] := by
    simp [ask_question, h]
  have hbody : (strategyBody c (dispatchStrategy strategy) question).2
        = [Event.modelCall] ∨
      (strategyBody c (dispatchStrategy strategy) question).2
        = [Event.modelCall, Event.modelCall] := by
    cases dispatchStrategy strategy with
    | simple => exact Or.inl rfl
    | multiQuery => exact Or.inr rfl
    | ragFusion =>
        simp only [strategyBody, ragFusionBody]
        split
        · exact Or.inl rfl
        · exact Or.inr rfl
    | hyde => exact Or.inr rfl
  rcases hbody with hb | hb <;> rw [h2, hb] <;>
    exact ⟨by decide, by decide, by decide, by decide⟩

/-- C9 witness: the cleanup facts at a concrete run of the failing
rag_fusion chain, an exit path that raises. -/
theorem ask_question_cleanup_witness :
    (ask_question ⟨fun _ => "ANSWER", fun _ => [sampleDoc]⟩ "rag_fusion"
        "Why?").2.head? = some Event.mkdtemp ∧
    (ask_question ⟨fun _ => "ANSWER", fun _ => [sampleDoc]⟩ "rag_fusion"
        "Why?").2.getLast? = some Event.rmtree ∧
    (ask_question ⟨fun _ => "ANSWER", fun _ => [sampleDoc]⟩ "rag_fusion"
        "Why?").2.count Event.mkdtemp = 1 ∧
    (ask_question ⟨fun _ => "ANSWER", fun _ => [sampleDoc]⟩ "rag_fusion"
        "Why?").2.count Event.rmtree = 1 :=
  ask_question_cleanup ⟨fun _ => "ANSWER", fun _ => [sampleDoc]⟩ "rag_fusion"
    "Why?" (by decide)

/-- C10: the /ask route answers with the simple retrieval strategy whatever
the request carries: the route result does not depend on the request
strategy field, the route runs ask_question with the constructor default
"simple", the request schema admits only the tags "simple" and
"multi_query", and the dispatch sends every tag other than multi_query,
rag_fusion and hyde to the simple chain. -/
theorem ask_route_always_simple :
    (∀ (c : Collab) (u q : String) (s1 s2 : StrategyEnum),
        askRoute c ⟨u, q, s1⟩ = askRoute c ⟨u, q, s2⟩) ∧
    (∀ (c : Collab) (req : QuestionRequest),
        askRoute c req = ask_question c "simple" req.question) ∧
    (∀ e : StrategyEnum, e.tag = "simple" ∨ e.tag = "multi_query") ∧
    (∀ tag : String, tag ≠ "multi_query" → tag ≠ "rag_fusion" → tag ≠ "hyde" →
        dispatchStrategy tag = ChainKind.simple) := by
  refine ⟨fun c u q s1 s2 => rfl, fun c req => rfl, ?_, ?_⟩
  · intro e
    cases e
    · exact Or.inl rfl
    · exact Or.inr rfl
  · intro tag h1 h2 h3
    simp [dispatchStrategy, h1, h2, h3]

/-- C10 witness: a tag outside the dispatch cases falls back to the simple
chain. -/
theorem ask_route_always_simple_witness :
    dispatchStrategy "anything_else" = ChainKind.simple :=
  ask_route_always_simple.2.2.2 "anything_else" (by decide) (by decide) (by decide)

theorem parsePaperSummary_isSome_iff (j : JsonObj) :
    (parsePaperSummary j).isSome = true ↔ wellShaped j := by
  unfold parsePaperSummary wellShaped
  cases asStr (j.lookup "title") <;>
    cases asStrList (j.lookup "authors") <;>
    cases asStr (j.lookup "abstract") <;>
    cases asStrList (j.lookup "key_points") <;>
    cases asStr (j.lookup "methodology") <;>
    cases asStr (j.lookup "results") <;>
    cases asStr (j.lookup "implications") <;>
    simp

/-- C7 (amended): the summarizer output is validated strictly against the
seven-field shape: validation succeeds exactly on well-shaped outputs; a
missing or mistyped field fails with the schema validation error surfaced
to the caller; and generate_summary returns only summaries that passed
validation of the synthesis output, never a partially validated one.
Field non-emptiness is not checked. -/
theorem summary_schema_strict :
    (∀ j : JsonObj, (∃ s, validateSummary j = Except.ok s) ↔ wellShaped j) ∧
    (∀ j : JsonObj, ¬ wellShaped j →
        validateSummary j = Except.error "SchemaValidationError") ∧
    (∀ (c : SummarizerCollab) (paper : PaperData) (s : PaperSummary),
        (generate_summary c paper).1 = Except.ok s →
        validateSummary (c.overallLLM (overallInput c paper)) = Except.ok s) := by
  refine ⟨?_, ?_, ?_⟩
  · intro j
    constructor
    · rintro ⟨s, hs⟩
      apply (parsePaperSummary_isSome_iff j).mp
      unfold validateSummary at hs
      cases hp : parsePaperSummary j with
      | none => rw [hp] at hs; cases hs
      | some s0 => simp
    · intro hw
      have hsome := (parsePaperSummary_isSome_iff j).mpr hw
      cases hp : parsePaperSummary j with
      | none => rw [hp] at hsome; cases hsome
      | some s0 => exact ⟨s0, by simp [validateSummary, hp]⟩
  · intro j hw
    cases hp : parsePaperSummary j with
    | none => simp [validateSummary, hp]
    | some s0 =>
        exact absurd ((parsePaperSummary_isSome_iff j).mp (by simp [hp])) hw
  · intro c paper s h
    unfold generate_summary at h
    unfold overallInput
    by_cases hlen : paper.documents.length > 1
    · rw [if_pos hlen] at h
      rw [if_pos hlen]
      cases hv : validateSummary (c.overallLLM (overallPromptInputs paper.details
          (paper.documents.map (fun d => c.sectionLLM d.page_content)))) with
      | ok s0 =>
          rw [hv] at h
          have hss : s0 = s := by simpa using h
          rw [hss]
      | error e =>
          rw [hv] at h
          simp at h
    · rw [if_neg hlen] at h
      rw [if_neg hlen]
      cases hd : paper.documents.head? with
      | none =>
          rw [hd] at h
          simp at h
      | some d =>
          show validateSummary (c.overallLLM
              (overallPromptInputs paper.details [d.page_content])) = Except.ok s
          cases hv : validateSummary (c.overallLLM
              (overallPromptInputs paper.details [d.page_content])) with
          | ok s0 =>
              simp [hd, hv] at h
              rw [h]
          | error e =>
              simp [hd, hv] at h

/-- C7 witness: the theorem applied at a concrete one-chunk paper whose
synthesis output is well shaped. -/
theorem summary_schema_strict_witness :
    validateSummary emptyFieldsJson = Except.ok emptySummary :=
  summary_schema_strict.2.2 ⟨fun s => s, fun _ => emptyFieldsJson⟩
    ⟨⟨"T", ["A"], "Ab"⟩, [⟨"body text", 0⟩]⟩ emptySummary rfl

/-- C7 counterexample: the summarizer returns a fully validated summary all
of whose fields are empty, so a returned SummaryResult need not have
non-empty fields. -/
theorem summary_nonempty_fields_counterexample :
    (generate_summary ⟨fun s => s, fun _ => emptyFieldsJson⟩
        ⟨⟨"T", ["A"], "Ab"⟩, [⟨"body text", 0⟩]⟩).1 = Except.ok emptySummary ∧
    emptySummary.title = "" ∧ emptySummary.authors = [] ∧
    emptySummary.key_points = [] :=
  ⟨rfl, rfl, rfl, rfl⟩

/-- C8: on a paper with zero chunks the summarizer fails fast, before any
language-model call: reading `documents[0]` fails out of range and the
model call count of the run is zero. -/
theorem summarizer_empty_paper_fails_fast (c : SummarizerCollab)
    (details : PaperDetails) :
    (generate_summary c ⟨details, []⟩).1 = Except.error SummErr.indexOutOfRange ∧
    (generate_summary c ⟨details, []⟩).2 = 0 :=
  ⟨rfl, rfl⟩

end Sightline
